import Mathlib

/-!
Verification of the incremental-ingestion-and-merge core of the rss-feeds
scrapers.  Three scrapers are embedded, each in its own namespace:

* `AP` — the Augsburger Panther news scraper (HTML listing, stop-at-known
  discovery, per-item enrichment with retry, capped store).
* `KS` — the Komood Store scraper (paginated JSON catalog, skip-known
  discovery, uncapped store).
* `HA` — the Homey App Store scraper (HTML listing, skip-known discovery,
  per-item enrichment with retry, capped store).

External effects (HTTP fetches, the wall clock) are passed in as explicit
oracles; the store is passed in as the prior list and returned as the list
that the run saves.
-/

namespace Pystr

/-!
Python string operations, embedded over the character list of a
`String` so that every definition reduces inside the kernel.  Python
strings are sequences of characters, so the character-list view is the
faithful one.
-/

/-- Test for a leading occurrence of a pattern string. -/
def startsWith (s p : String) : Bool :=
  p.data.isPrefixOf s.data

/-- Test for a trailing occurrence of a pattern string. -/
def endsWith (s p : String) : Bool :=
  p.data.isSuffixOf s.data

/-- Drop the first n characters, as the slice s[n:]. -/
def drop (s : String) (n : Nat) : String :=
  String.mk (s.data.drop n)

/-- Drop the last n characters, as the slice s[:-n] for positive n. -/
def dropRight (s : String) (n : Nat) : String :=
  String.mk (s.data.take (s.data.length - n))

/-- Strip the given trailing characters, as rstrip. -/
def dropRightWhile (s : String) (p : Char → Bool) : String :=
  String.mk ((s.data.reverse.dropWhile p).reverse)

/-- Strip leading and trailing whitespace, as strip with no argument. -/
def trim (s : String) : String :=
  String.mk ((s.data.dropWhile Char.isWhitespace).reverse.dropWhile
    Char.isWhitespace).reverse

/-- The loop of splitting on a nonempty separator string: scan left to
right, cutting at each non-overlapping occurrence of the separator.
The accumulator holds the current piece reversed; the fuel starts at
the input length, enough because every step consumes at least one
character. -/
def splitOnGo (sep : List Char) : Nat → List Char → List Char → List (List Char)
  | _, [], cur => [cur.reverse]
  | 0, l, cur => [cur.reverse ++ l]
  | fuel + 1, c :: rest, cur =>
    if sep.isPrefixOf (c :: rest) then
      cur.reverse :: splitOnGo sep fuel ((c :: rest).drop sep.length) []
    else splitOnGo sep fuel rest (c :: cur)

/-- Split on a separator string, as split(sep) with a nonempty sep. -/
def splitOn (s sep : String) : List String :=
  (splitOnGo sep.data s.data.length s.data []).map String.mk

/-- The loop of whitespace splitting: cut at every character satisfying
the predicate, keeping empty pieces between adjacent cuts. -/
def splitPredGo (p : Char → Bool) : List Char → List Char → List (List Char)
  | [], cur => [cur.reverse]
  | c :: rest, cur =>
    if p c then cur.reverse :: splitPredGo p rest []
    else splitPredGo p rest (c :: cur)

/-- Split at every character satisfying the predicate. -/
def splitPred (p : Char → Bool) (s : String) : List String :=
  (splitPredGo p s.data []).map String.mk

/-- Join pieces with a separator, as sep.join(pieces). -/
def intercalateGo (sep : List Char) : List (List Char) → List Char
  | [] => []
  | [x] => x
  | x :: y :: rest => x ++ sep ++ intercalateGo sep (y :: rest)

/-- Join a list of strings with a separator string. -/
def intercalate (sep : String) (ls : List String) : String :=
  String.mk (intercalateGo sep.data (ls.map String.data))

end Pystr

namespace AP

/-- Base URL of the news site, prepended to relative listing links. -/
def BASE_URL : String := "https://www.aev-panther.de"

/-- Cap on both discovery (new items per run) and the stored list. -/
def MAX_ARTICLES : Nat := 50

/-- Number of enrichment attempts per item per run. -/
def MAX_RETRIES : Nat := 3

/-- One listing entry (a div.news-item element): the href of its first
anchor, if any (the href attribute of a present anchor defaults to the
empty string), and the stripped texts of the spans inside the item link. -/
structure Entry where
  link : Option String
  spans : List String
deriving DecidableEq

/-- A stored item record (one row of articles.tsv). -/
structure Article where
  date : String
  time : String
  title : String
  url : String
  description : String
  image : String
deriving DecidableEq

/-- A discovered candidate: (date, time, title, url), as in the source. -/
abbrev Candidate := String × String × String × String

/-- Convert DD.MM.YYYY to YYYY-MM-DD; anything else is returned unchanged. -/
def german_date_to_iso (date_str : String) : String :=
  if date_str = "" then ""
  else
    match Pystr.splitOn date_str "." with
    | [day, month, year] => year ++ "-" ++ month ++ "-" ++ day
    | _ => date_str

/-- The anchored match of the pattern DD.MM.YYYY \s* | \s* HH:MM against the
start of the span text, returning the date group and the time group. -/
def matchDateTime (s : String) : Option (String × String) :=
  match s.data with
  | d1 :: d2 :: '.' :: m1 :: m2 :: '.' :: y1 :: y2 :: y3 :: y4 :: rest =>
    if d1.isDigit && d2.isDigit && m1.isDigit && m2.isDigit &&
        y1.isDigit && y2.isDigit && y3.isDigit && y4.isDigit then
      match rest.dropWhile Char.isWhitespace with
      | '|' :: rest2 =>
        match rest2.dropWhile Char.isWhitespace with
        | h1 :: h2 :: ':' :: n1 :: n2 :: _ =>
          if h1.isDigit && h2.isDigit && n1.isDigit && n2.isDigit then
            some (String.mk [d1, d2, '.', m1, m2, '.', y1, y2, y3, y4],
                  String.mk [h1, h2, ':', n1, n2])
          else none
        | _ => none
      | _ => none
    else none
  | _ => none

/-- Absolutize a listing href: prepend the base URL unless it already
starts with http. -/
def resolveUrl (href : String) : String :=
  if Pystr.startsWith href "http" then href else BASE_URL ++ href

/-- The (date, time, title) fields extracted from the spans of an entry. -/
def entryFields (item : Entry) : String × String × String :=
  let dtTitle : String × String :=
    match item.spans with
    | s0 :: s1 :: _ => (s0, s1)
    | _ => ("", "")
  match matchDateTime dtTitle.1 with
  | some (d, t) => (german_date_to_iso d, t, dtTitle.2)
  | none => ("", "", dtTitle.2)

/-- The candidate tuple built from an entry and its anchor href. -/
def candOf (item : Entry) (href : String) : Candidate :=
  ((entryFields item).1, (entryFields item).2.1, (entryFields item).2.2,
   resolveUrl href)

/-- The loop body of parse_news_items: walk the entries top to bottom,
skip entries with no anchor, stop at the first known URL, append
candidates with nonempty title and URL, and stop once MAX_ARTICLES
candidates have been collected. -/
def parse_news_items_go (existing_urls : List String) :
    List Entry → List Candidate → List Candidate
  | [], acc => acc
  | item :: rest, acc =>
    match item.link with
    | none => parse_news_items_go existing_urls rest acc
    | some href =>
      if resolveUrl href ∈ existing_urls then acc
      else if (entryFields item).2.2 ≠ "" ∧ resolveUrl href ≠ "" then
        if MAX_ARTICLES ≤ (acc ++ [candOf item href]).length then
          acc ++ [candOf item href]
        else parse_news_items_go existing_urls rest (acc ++ [candOf item href])
      else parse_news_items_go existing_urls rest acc

/-- parse_news_items: collect new candidates from the listing, given the
set of already-known URLs. -/
def parse_news_items (entries : List Entry) (existing_urls : List String) :
    List Candidate :=
  parse_news_items_go existing_urls entries []

/-- Turn a candidate tuple into the stored dict with empty description
and image. -/
def toDict (c : Candidate) : Article :=
  { date := c.1, time := c.2.1, title := c.2.2.1, url := c.2.2.2,
    description := "", image := "" }

/-- The retry loop of fetch_article_content_with_retry: attempts are an
oracle from attempt number to the fetch outcome, where none models a
raised exception and some gives the extracted (description, image).
An attempt succeeds only when the description is nonempty. -/
def retryLoop (attempts : Nat → Option (String × String)) :
    Nat → Nat → Option (String × String)
  | _, 0 => none
  | attempt, fuel + 1 =>
    match attempts attempt with
    | some (description, image) =>
      if description ≠ "" then some (description, image)
      else retryLoop attempts (attempt + 1) fuel
    | none => retryLoop attempts (attempt + 1) fuel

/-- fetch_article_content_with_retry: up to MAX_RETRIES attempts,
starting at attempt 1. -/
def fetch_article_content_with_retry
    (attempts : Nat → Option (String × String)) : Option (String × String) :=
  retryLoop attempts 1 MAX_RETRIES

/-- The enrichment oracle of a run: for each URL, the outcome of each
numbered fetch attempt. -/
abbrev Oracle := String → Nat → Option (String × String)

/-- Process one article of the merged list: articles with an empty
description get an enrichment attempt; on success the description and
image are filled in and the article is marked updated. -/
def enrichStep (oracle : Oracle) (a : Article) : Article × Bool :=
  if a.description = "" then
    match fetch_article_content_with_retry (oracle a.url) with
    | some (d, i) => ({ a with description := d, image := i }, true)
    | none => (a, false)
  else (a, false)

/-- The enrichment pass over the merged list: returns the updated list
(in place, order kept) and the list of successfully updated articles in
processing order. -/
def enrichAll (oracle : Oracle) : List Article → List Article × List Article
  | [] => ([], [])
  | a :: rest =>
    ((enrichStep oracle a).1 :: (enrichAll oracle rest).1,
     (if (enrichStep oracle a).2 then [(enrichStep oracle a).1] else []) ++
       (enrichAll oracle rest).2)

/-- Everything one run computes and emits. -/
structure RunResult where
  newDiscovered : List Candidate
  mergedPreTrim : List Article
  trimmed : List Article
  saved : List Article
  updated : List Article
  feed : List Article
  summaryLines : List String
  summaryPrinted : Bool
  exitCode : Nat
deriving DecidableEq

/-- One run of main, after a successful listing fetch: load prior state,
discover new candidates, merge new-first, trim to MAX_ARTICLES, enrich
pending articles, save, render the feed (records with nonempty
description only), and pick the exit code from whether any article was
updated this run. -/
def run (listing : List Entry) (existing : List Article) (oracle : Oracle) :
    RunResult :=
  let existing_urls := existing.map (fun a => a.url)
  let new_articles := parse_news_items listing existing_urls
  let new_dicts := new_articles.map toDict
  let merged := new_dicts ++ existing
  let trimmed := merged.take MAX_ARTICLES
  let er := enrichAll oracle trimmed
  { newDiscovered := new_articles
    mergedPreTrim := merged
    trimmed := trimmed
    saved := er.1
    updated := er.2
    feed := er.1.filter (fun a => a.description != "")
    summaryLines := er.2.map (fun a => a.date ++ " " ++ a.title)
    summaryPrinted := !er.2.isEmpty
    exitCode := if er.2.isEmpty then 1 else 0 }

/-- main including the initial listing fetch: a transport error on the
listing fetch propagates and nothing is computed or saved. -/
def mainRun (fetchListing : Except String (List Entry))
    (existing : List Article) (oracle : Oracle) : Except String RunResult :=
  match fetchListing with
  | .error e => .error e
  | .ok listing => .ok (run listing existing oracle)

end AP

namespace KS

/-- Base URL of the Komood store. -/
def BASE_URL : String := "https://www.komood.store"

/-- Number of retry attempts declared by the scraper (unused: this
scraper has no per-item enrichment step). -/
def MAX_RETRIES : Nat := 3

/-- The first cleanup step of clean_product_id: remove one leading sale
marker, the conditional slice handle[len(marker):]. -/
def stripSalePre (l : List Char) : List Char :=
  if "ausverkauft-".data.isPrefixOf l then l.drop "ausverkauft-".data.length
  else l

/-- The second cleanup step of clean_product_id: remove one trailing
format marker, the conditional slice cleaned[:-len(marker)]. -/
def stripShirtSuf (l : List Char) : List Char :=
  if "-t-shirt".data.isSuffixOf l then
    l.take (l.length - "-t-shirt".data.length)
  else l

/-- clean_product_id: remove one leading sale marker and then one
trailing format marker from a raw Shopify handle.  Strings are
manipulated through their character lists, matching the Python slice
operations. -/
def clean_product_id (handle : String) : String :=
  String.mk (stripShirtSuf (stripSalePre handle.data))

/-- Title cleanup: strip the sale marker and one format suffix variant. -/
def cleanTitle (title : String) : String :=
  let t1 := if Pystr.startsWith title "AUSVERKAUFT: " then
              Pystr.drop title "AUSVERKAUFT: ".length
            else title
  if Pystr.endsWith t1 " - T-Shirt" then Pystr.dropRight t1 " - T-Shirt".length
  else if Pystr.endsWith t1 " - T-shirt" then
    Pystr.dropRight t1 " - T-shirt".length
  else t1

/-- A JSON price value is either a number or a string. -/
inductive PriceVal where
  | pnum : Nat → PriceVal
  | pstr : String → PriceVal
deriving DecidableEq

/-- One raw product object of the products.json payload: the handle,
the title, the variant prices, the body_html, and the image srcs. -/
structure RawProduct where
  handle : String
  title : String
  variants : List PriceVal
  body_html : String
  images : List String
deriving DecidableEq

/-- A processed product as appended by fetch_all_products. -/
structure Product where
  id : String
  title : String
  description : String
  url : String
  image : String
deriving DecidableEq

/-- A stored product record (one row of articles.tsv). -/
structure SProduct where
  id : String
  title : String
  description : String
  url : String
  image : String
  timestamp : String
deriving DecidableEq

/-- Price in cents from the first variant.  String prices go through
float parsing in the source, which a caller supplies as the
strPriceCents oracle (ValueError already folded to 0 there). -/
def priceCents (strPriceCents : String → Nat) : List PriceVal → Nat
  | [] => 0
  | v :: _ =>
    match v with
    | .pnum n => n
    | .pstr s => strPriceCents s

/-- Two-digit zero-padded rendering of the cent part. -/
def pad2 (n : Nat) : String :=
  if n < 10 then "0" ++ toString n else toString n

/-- EUR formatting of a cent amount; zero means no price. -/
def formatPrice (cents : Nat) : String :=
  if cents = 0 then ""
  else "€" ++ toString (cents / 100) ++ "," ++ pad2 (cents % 100)

/-- One pass of the tag-stripping regex sub: at an opening angle
bracket followed by at least one character other than a closing angle
bracket and then a closing one, drop through that closing bracket;
otherwise keep the character.  Fuel is the length of the input, enough
because every step consumes at least one character. -/
def stripTagsGo : Nat → List Char → List Char
  | 0, _ => []
  | _, [] => []
  | fuel + 1, c :: rest =>
    if c = '<' then
      let run := rest.takeWhile (fun x => x ≠ '>')
      match rest.drop run.length with
      | '>' :: after =>
        if run.isEmpty then c :: stripTagsGo fuel rest
        else stripTagsGo fuel after
      | _ => c :: stripTagsGo fuel rest
    else c :: stripTagsGo fuel rest

/-- Remove HTML tags from a string. -/
def stripTags (s : String) : String :=
  String.mk (stripTagsGo s.data.length s.data)

/-- Collapse whitespace runs into single spaces, dropping leading and
trailing whitespace: the join of the nonempty whitespace-split parts. -/
def normalizeWs (s : String) : String :=
  Pystr.intercalate " "
    ((Pystr.splitPred Char.isWhitespace s).filter (fun t => t ≠ ""))

/-- Process one raw product into a catalog product, or skip it when the
cleaned id or the cleaned title is empty. -/
def processProduct (strPriceCents : String → Nat) (p : RawProduct) :
    Option Product :=
  let product_id := clean_product_id p.handle
  let title := cleanTitle p.title
  let price := formatPrice (priceCents strPriceCents p.variants)
  let description_text := normalizeWs (Pystr.trim (stripTags p.body_html))
  let description :=
    if price ≠ "" ∧ description_text ≠ "" then price ++ " • " ++ description_text
    else if price ≠ "" then price
    else if description_text ≠ "" then description_text
    else ""
  let image := p.images.headD ""
  let url := BASE_URL ++ "/products/" ++ p.handle
  if product_id ≠ "" ∧ title ≠ "" then
    some { id := product_id, title := title, description := description,
           url := url, image := image }
  else none

/-- The page oracle: page number to fetch outcome, where an error
models a raised exception during the fetch or JSON decode. -/
abbrev Pages := Nat → Except String (List RawProduct)

/-- The pagination loop of fetch_all_products: fetch pages starting
at 1, stop on a fetch error, an empty page, or once the next page
number would exceed 50.  Returns the accumulated products and the
number of pages fetched.  The fuel argument only realizes the page
counter bound as structural recursion; with fuel 50 at page 1 it never
reaches zero. -/
def fetch_all_products_go (pages : Pages) (strPriceCents : String → Nat) :
    Nat → Nat → List Product × Nat
  | _, 0 => ([], 0)
  | page, fuel + 1 =>
    match pages page with
    | .error _ => ([], 1)
    | .ok [] => ([], 1)
    | .ok (p :: ps) =>
      if 50 < page + 1 then ((p :: ps).filterMap (processProduct strPriceCents), 1)
      else
        ((p :: ps).filterMap (processProduct strPriceCents) ++
           (fetch_all_products_go pages strPriceCents (page + 1) fuel).1,
         1 + (fetch_all_products_go pages strPriceCents (page + 1) fuel).2)

/-- fetch_all_products: the paginated catalog walk from page 1. -/
def fetch_all_products (pages : Pages) (strPriceCents : String → Nat) :
    List Product × Nat :=
  fetch_all_products_go pages strPriceCents 1 50

/-- Attach the discovery timestamp to a new product. -/
def toStored (p : Product) (now : String) : SProduct :=
  { id := p.id, title := p.title, description := p.description,
    url := p.url, image := p.image, timestamp := now }

/-- Everything one run computes and emits. -/
structure RunResult where
  all_products : List Product
  pagesFetched : Nat
  new_products : List SProduct
  merged : List SProduct
  saved : List SProduct
  feed : List SProduct
  summaryLines : List String
  summaryPrinted : Bool
  exitCode : Nat
deriving DecidableEq

/-- One run of main: load prior state, fetch the whole catalog, keep
the products whose id is not yet known (stamped with the current time),
merge new-first with no cap, save, render the feed (records with
nonempty description only), and pick the exit code from whether any new
product was found.  Page fetch errors are caught inside
fetch_all_products, so the run itself never propagates one. -/
def run (pages : Pages) (strPriceCents : String → Nat)
    (existing : List SProduct) (now : String) : RunResult :=
  let existing_ids := existing.map (fun p => p.id)
  let fp := fetch_all_products pages strPriceCents
  let new_products :=
    (fp.1.filter (fun p => p.id ∉ existing_ids)).map (fun p => toStored p now)
  let merged := new_products ++ existing
  { all_products := fp.1
    pagesFetched := fp.2
    new_products := new_products
    merged := merged
    saved := merged
    feed := merged.filter (fun p => p.description != "")
    summaryLines := new_products.map (fun p => p.title)
    summaryPrinted := !new_products.isEmpty
    exitCode := if new_products.isEmpty then 1 else 0 }

end KS

namespace HA

/-- Cap on both discovery (new apps per run) and the stored list. -/
def MAX_APPS : Nat := 50

/-- Number of enrichment attempts per app per run. -/
def MAX_RETRIES : Nat := 3

/-- A stored app record (one row of articles.tsv). -/
structure App where
  id : String
  name : String
  description : String
  url : String
  image : String
  developer : String
  timestamp : String
deriving DecidableEq

/-- The fields extracted from an app detail page. -/
structure Details where
  id : String
  name : String
  description : String
  image : String
  developer : String
deriving DecidableEq

/-- Substring test for the app path segment, via the split count:
the segment occurs in the href exactly when splitting on it yields at
least two parts. -/
def hasAppSeg (s : String) : Bool :=
  2 ≤ (Pystr.splitOn s "/app/").length

/-- The app id derived from an href: the text between the first and
second occurrence of the app path segment, with trailing slashes
stripped. -/
def appIdOf (href : String) : String :=
  Pystr.dropRightWhile ((Pystr.splitOn href "/app/").getD 1 "")
    (fun c => c = '/')

/-- Absolutize a relative listing href. -/
def absHref (href : String) : String :=
  if Pystr.startsWith href "/" then "https://homey.app" ++ href else href

/-- Append an href unless it is already present, the in-run duplicate
guard of the loop. -/
def dedupAppend (acc : List String) (h : String) : List String :=
  if h ∈ acc then acc else acc ++ [h]

/-- The loop body of parse_new_apps over the hrefs of the app links
found in the New Apps section: skip empty hrefs, absolutize relative
ones, skip hrefs without the app path segment, skip known app ids,
append unseen hrefs, and stop once MAX_APPS hrefs are collected (the
cap check runs even when the href was a duplicate). -/
def parse_new_apps_go (existing_ids : List String) :
    List String → List String → List String
  | [], acc => acc
  | href :: rest, acc =>
    if href = "" then parse_new_apps_go existing_ids rest acc
    else if hasAppSeg (absHref href) then
      if appIdOf (absHref href) ∈ existing_ids then
        parse_new_apps_go existing_ids rest acc
      else if MAX_APPS ≤ (dedupAppend acc (absHref href)).length then
        dedupAppend acc (absHref href)
      else parse_new_apps_go existing_ids rest (dedupAppend acc (absHref href))
    else parse_new_apps_go existing_ids rest acc

/-- parse_new_apps: collect the new app URLs from the listing section,
given the set of already-known app ids. -/
def parse_new_apps (links : List String) (existing_ids : List String) :
    List String :=
  parse_new_apps_go existing_ids links []

/-- The URL-collection loop only ever appends: its accumulator is a
prefix of its result. -/
theorem parse_apps_go_extends (ids : List String) :
    ∀ (links acc : List String), acc <+: parse_new_apps_go ids links acc := by
  intro links
  induction links with
  | nil => intro acc; exact List.prefix_refl _
  | cons href rest ih =>
    intro acc
    simp only [parse_new_apps_go]
    by_cases h0 : href = ""
    · rw [if_pos h0]; exact ih acc
    · rw [if_neg h0]
      by_cases hseg : hasAppSeg (absHref href) = true
      · rw [if_pos hseg]
        by_cases hknown : appIdOf (absHref href) ∈ ids
        · rw [if_pos hknown]; exact ih acc
        · rw [if_neg hknown]
          have hpre : acc <+: dedupAppend acc (absHref href) := by
            unfold dedupAppend
            by_cases hdup : absHref href ∈ acc
            · rw [if_pos hdup]
            · rw [if_neg hdup]; exact List.prefix_append _ _
          by_cases hcap : MAX_APPS ≤ (dedupAppend acc (absHref href)).length
          · rw [if_pos hcap]; exact hpre
          · rw [if_neg hcap]; exact hpre.trans (ih _)
      · rw [if_neg hseg]; exact ih acc

/-- A listing whose first link is nonempty, carries the app path
segment, and resolves to an unknown id always yields that link among
the collected new app URLs: an unwritten app is rediscovered. -/
theorem parse_first_mem (ids : List String) (href : String)
    (rest : List String) (h0 : href ≠ "")
    (hseg : hasAppSeg (absHref href) = true)
    (hknown : appIdOf (absHref href) ∉ ids) :
    absHref href ∈ parse_new_apps (href :: rest) ids := by
  show absHref href ∈ parse_new_apps_go ids (href :: rest) []
  simp only [parse_new_apps_go]
  rw [if_neg h0, if_pos hseg, if_neg hknown]
  have hded : dedupAppend [] (absHref href) = [absHref href] := by
    unfold dedupAppend
    rw [if_neg (List.not_mem_nil _)]
    rfl
  rw [hded]
  by_cases hcap : MAX_APPS ≤ ([absHref href] : List String).length
  · rw [if_pos hcap]; exact List.mem_singleton_self _
  · rw [if_neg hcap]
    exact (parse_apps_go_extends ids rest [absHref href]).subset
      (List.mem_singleton_self _)

/-- The retry loop of fetch_app_details_with_retry: attempts are an
oracle from attempt number to the fetch outcome, where none models a
raised exception or a detail page without a name.  An attempt succeeds
only when the extracted name is nonempty. -/
def retryLoop (attempts : Nat → Option Details) : Nat → Nat → Option Details
  | _, 0 => none
  | attempt, fuel + 1 =>
    match attempts attempt with
    | some d =>
      if d.name ≠ "" then some d
      else retryLoop attempts (attempt + 1) fuel
    | none => retryLoop attempts (attempt + 1) fuel

/-- fetch_app_details_with_retry: up to MAX_RETRIES attempts, starting
at attempt 1. -/
def fetch_app_details_with_retry (attempts : Nat → Option Details) :
    Option Details :=
  retryLoop attempts 1 MAX_RETRIES

/-- The enrichment oracle of a run: for each URL, the outcome of each
numbered fetch attempt. -/
abbrev Oracle := String → Nat → Option Details

/-- Build the stored record from fetched details, the fetch URL and the
discovery timestamp. -/
def mkApp (d : Details) (url now : String) : App :=
  { id := d.id, name := d.name, description := d.description, url := url,
    image := d.image, developer := d.developer, timestamp := now }

/-- Everything one run computes and emits. -/
structure RunResult where
  new_app_urls : List String
  new_apps : List App
  merged : List App
  saved : List App
  feed : List App
  summaryLines : List String
  summaryPrinted : Bool
  exitCode : Nat
deriving DecidableEq

/-- One run of main, after a successful listing fetch: load prior
state, discover new app URLs, fetch details per URL with retry keeping
only the successes, merge new-first, trim to MAX_APPS, save, render the
feed (records with a nonempty name only), and pick the exit code from
whether any new app was enriched this run. -/
def run (links : List String) (existing : List App) (oracle : Oracle)
    (now : String) : RunResult :=
  let existing_ids := existing.map (fun a => a.id)
  let new_app_urls := parse_new_apps links existing_ids
  let new_apps := new_app_urls.filterMap
    (fun u => (fetch_app_details_with_retry (oracle u)).map
      (fun d => mkApp d u now))
  let merged := new_apps ++ existing
  let saved := merged.take MAX_APPS
  { new_app_urls := new_app_urls
    new_apps := new_apps
    merged := merged
    saved := saved
    feed := saved.filter (fun a => a.name != "")
    summaryLines := new_apps.map (fun a => a.name)
    summaryPrinted := !new_apps.isEmpty
    exitCode := if new_apps.isEmpty then 1 else 0 }

/-- main including the initial listing fetch: a transport error on the
listing fetch propagates and nothing is computed or saved. -/
def mainRun (fetchListing : Except String (List String))
    (existing : List App) (oracle : Oracle) (now : String) :
    Except String RunResult :=
  match fetchListing with
  | .error e => .error e
  | .ok links => .ok (run links existing oracle now)

end HA

/-!  Helper lemmas about the embedded loops.  -/

namespace AP

/-- The URL an entry resolves to, when it has an anchor. -/
def entryUrl (item : Entry) : Option String :=
  item.link.map resolveUrl

/-- The url component of a candidate tuple. -/
def candUrl (c : Candidate) : String := c.2.2.2

/-- Every candidate the discovery loop adds beyond its accumulator has a
nonempty title, a nonempty URL, and a URL outside the known set. -/
theorem parse_go_mem (existing : List String) :
    ∀ (entries : List Entry) (acc : List Candidate) (c : Candidate),
      c ∈ parse_news_items_go existing entries acc →
      c ∈ acc ∨ (c.2.2.1 ≠ "" ∧ c.2.2.2 ≠ "" ∧ c.2.2.2 ∉ existing) := by
  intro entries
  induction entries with
  | nil => intro acc c hc; exact Or.inl hc
  | cons item rest ih =>
    intro acc c hc
    obtain ⟨link, spans⟩ := item
    cases link with
    | none => exact ih acc c hc
    | some href =>
      simp only [parse_news_items_go] at hc
      by_cases hmem : resolveUrl href ∈ existing
      · rw [if_pos hmem] at hc; exact Or.inl hc
      · rw [if_neg hmem] at hc
        by_cases hguard :
            (entryFields ⟨some href, spans⟩).2.2 ≠ "" ∧ resolveUrl href ≠ ""
        · rw [if_pos hguard] at hc
          by_cases hcap : MAX_ARTICLES ≤
              (acc ++ [candOf ⟨some href, spans⟩ href]).length
          · rw [if_pos hcap] at hc
            rcases List.mem_append.1 hc with h | h
            · exact Or.inl h
            · rcases List.mem_singleton.1 h with rfl
              exact Or.inr ⟨hguard.1, hguard.2, hmem⟩
          · rw [if_neg hcap] at hc
            rcases ih _ c hc with h | h
            · rcases List.mem_append.1 h with h' | h'
              · exact Or.inl h'
              · rcases List.mem_singleton.1 h' with rfl
                exact Or.inr ⟨hguard.1, hguard.2, hmem⟩
            · exact Or.inr h
        · rw [if_neg hguard] at hc
          exact ih acc c hc

/-- The URLs the discovery loop returns form a sublist of the
accumulator URLs followed by the resolved listing URLs, so discovery
never invents a URL and never reorders the listing. -/
theorem parse_go_sublist (existing : List String) :
    ∀ (entries : List Entry) (acc : List Candidate),
      ((parse_news_items_go existing entries acc).map candUrl).Sublist
        (acc.map candUrl ++ entries.filterMap entryUrl) := by
  intro entries
  induction entries with
  | nil =>
    intro acc
    simp only [parse_news_items_go, List.filterMap_nil, List.append_nil]
    exact List.Sublist.refl _
  | cons item rest ih =>
    intro acc
    obtain ⟨link, spans⟩ := item
    cases link with
    | none =>
      simpa [parse_news_items_go, entryUrl, List.filterMap_cons] using ih acc
    | some href =>
      simp only [parse_news_items_go, entryUrl, List.filterMap_cons,
        Option.map_some']
      by_cases hmem : resolveUrl href ∈ existing
      · rw [if_pos hmem]
        exact (List.sublist_append_left _ _).trans
          (List.Sublist.append_left (List.nil_sublist _) _)
      · rw [if_neg hmem]
        by_cases hguard :
            (entryFields ⟨some href, spans⟩).2.2 ≠ "" ∧ resolveUrl href ≠ ""
        · rw [if_pos hguard]
          by_cases hcap : MAX_ARTICLES ≤
              (acc ++ [candOf ⟨some href, spans⟩ href]).length
          · rw [if_pos hcap]
            rw [List.map_append]
            exact List.Sublist.append_left
              (List.Sublist.cons₂ _ (List.nil_sublist _)) _
          · rw [if_neg hcap]
            have h := ih (acc ++ [candOf ⟨some href, spans⟩ href])
            rw [List.map_append] at h
            simpa [List.append_assoc] using h
        · rw [if_neg hguard]
          exact (ih acc).trans
            (List.Sublist.append_left (List.sublist_cons_self _ _) _)

/-- The discovery loop never returns more than MAX_ARTICLES candidates,
provided its accumulator is still below the cap. -/
theorem parse_go_length (existing : List String) :
    ∀ (entries : List Entry) (acc : List Candidate),
      acc.length < MAX_ARTICLES →
      (parse_news_items_go existing entries acc).length ≤ MAX_ARTICLES := by
  intro entries
  induction entries with
  | nil => intro acc h; exact Nat.le_of_lt h
  | cons item rest ih =>
    intro acc h
    obtain ⟨link, spans⟩ := item
    cases link with
    | none => exact ih acc h
    | some href =>
      simp only [parse_news_items_go]
      by_cases hmem : resolveUrl href ∈ existing
      · rw [if_pos hmem]; exact Nat.le_of_lt h
      · rw [if_neg hmem]
        by_cases hguard :
            (entryFields ⟨some href, spans⟩).2.2 ≠ "" ∧ resolveUrl href ≠ ""
        · rw [if_pos hguard]
          by_cases hcap : MAX_ARTICLES ≤
              (acc ++ [candOf ⟨some href, spans⟩ href]).length
          · rw [if_pos hcap]
            have : (acc ++ [candOf ⟨some href, spans⟩ href]).length =
                acc.length + 1 := by simp
            omega
          · rw [if_neg hcap]
            exact ih _ (Nat.lt_of_not_le hcap)
        · rw [if_neg hguard]
          exact ih acc h

/-- The discovery loop never looks past the first known entry: entries
below a known one contribute nothing. -/
theorem parse_go_stop (existing : List String) (item : Entry) (href : String)
    (hlink : item.link = some href) (hknown : resolveUrl href ∈ existing) :
    ∀ (l₁ l₂ : List Entry) (acc : List Candidate),
      parse_news_items_go existing (l₁ ++ item :: l₂) acc =
        parse_news_items_go existing l₁ acc := by
  intro l₁
  induction l₁ with
  | nil =>
    intro l₂ acc
    obtain ⟨link, spans⟩ := item
    obtain rfl : link = some href := hlink
    simp only [List.nil_append, parse_news_items_go]
    rw [if_pos hknown]
  | cons e l₁ ih =>
    intro l₂ acc
    obtain ⟨link, spans⟩ := e
    cases link with
    | none => exact ih l₂ acc
    | some href' =>
      simp only [List.cons_append, parse_news_items_go]
      by_cases hmem : resolveUrl href' ∈ existing
      · rw [if_pos hmem, if_pos hmem]
      · rw [if_neg hmem, if_neg hmem]
        by_cases hguard :
            (entryFields ⟨some href', spans⟩).2.2 ≠ "" ∧ resolveUrl href' ≠ ""
        · rw [if_pos hguard, if_pos hguard]
          by_cases hcap : MAX_ARTICLES ≤
              (acc ++ [candOf ⟨some href', spans⟩ href']).length
          · rw [if_pos hcap, if_pos hcap]
          · rw [if_neg hcap, if_neg hcap]
            exact ih l₂ _
        · rw [if_neg hguard, if_neg hguard]
          exact ih l₂ acc

/-- The enriched list is the element-wise enrichment of its input. -/
theorem enrichAll_fst (oracle : Oracle) :
    ∀ l : List Article,
      (enrichAll oracle l).1 = l.map (fun a => (enrichStep oracle a).1) := by
  intro l
  induction l with
  | nil => rfl
  | cons a rest ih => simp [enrichAll, ih]

/-- The pending set of a stored list: the records the next run will
again try to enrich, those with an empty description. -/
def articles_needing_content (l : List Article) : List Article :=
  l.filter (fun a => a.description == "")

/-- Enrichment never changes the URL of a record. -/
theorem enrichStep_fst_url (oracle : Oracle) (a : Article) :
    ((enrichStep oracle a).1).url = a.url := by
  unfold enrichStep
  by_cases hd : a.description = ""
  · rw [if_pos hd]
    cases fetch_article_content_with_retry (oracle a.url) with
    | none => rfl
    | some p => obtain ⟨d, i⟩ := p; rfl
  · rw [if_neg hd]

/-- A pending record whose enrichment fails is passed through
unchanged and not marked updated. -/
theorem enrichStep_of_fail (oracle : Oracle) (a : Article)
    (hd : a.description = "")
    (hf : fetch_article_content_with_retry (oracle a.url) = none) :
    enrichStep oracle a = (a, false) := by
  unfold enrichStep
  rw [if_pos hd, hf]

/-- The run saves exactly as many records as it trimmed to. -/
theorem run_saved_length (listing : List Entry) (existing : List Article)
    (oracle : Oracle) :
    (run listing existing oracle).saved.length ≤ MAX_ARTICLES := by
  show ((enrichAll oracle
    (((parse_news_items listing (existing.map fun a => a.url)).map toDict ++
      existing).take MAX_ARTICLES)).1).length ≤ MAX_ARTICLES
  rw [enrichAll_fst, List.length_map, List.length_take]
  exact Nat.min_le_left _ _

/-- A successful retry always carries a nonempty description. -/
theorem retryLoop_some_desc (attempts : Nat → Option (String × String)) :
    ∀ (fuel attempt : Nat) (d i : String),
      retryLoop attempts attempt fuel = some (d, i) → d ≠ "" := by
  intro fuel
  induction fuel with
  | zero => intro attempt d i h; exact absurd h (by simp [retryLoop])
  | succ fuel ih =>
    intro attempt d i h
    cases hA : attempts attempt with
    | none =>
      simp only [retryLoop, hA] at h
      exact ih _ _ _ h
    | some p =>
      obtain ⟨p1, p2⟩ := p
      simp only [retryLoop, hA] at h
      by_cases hd : p1 ≠ ""
      · rw [if_pos hd] at h
        simp only [Option.some.injEq, Prod.mk.injEq] at h
        obtain ⟨rfl, rfl⟩ := h
        exact hd
      · rw [if_neg hd] at h
        exact ih _ _ _ h

end AP

namespace HA

/-- The URL-collection loop never returns more than MAX_APPS hrefs,
provided its accumulator is still below the cap. -/
theorem parse_apps_go_length (ids : List String) :
    ∀ (links : List String) (acc : List String),
      acc.length < MAX_APPS →
      (parse_new_apps_go ids links acc).length ≤ MAX_APPS := by
  intro links
  induction links with
  | nil => intro acc h; exact Nat.le_of_lt h
  | cons href rest ih =>
    intro acc h
    simp only [parse_new_apps_go]
    by_cases h0 : href = ""
    · rw [if_pos h0]; exact ih acc h
    · rw [if_neg h0]
      by_cases hseg : hasAppSeg (absHref href) = true
      · rw [if_pos hseg]
        by_cases hknown : appIdOf (absHref href) ∈ ids
        · rw [if_pos hknown]; exact ih acc h
        · rw [if_neg hknown]
          have hlen : (dedupAppend acc (absHref href)).length ≤ acc.length + 1 := by
            unfold dedupAppend
            by_cases hdup : absHref href ∈ acc
            · rw [if_pos hdup]; omega
            · rw [if_neg hdup]; simp
          by_cases hcap : MAX_APPS ≤ (dedupAppend acc (absHref href)).length
          · rw [if_pos hcap]; omega
          · rw [if_neg hcap]
            exact ih _ (Nat.lt_of_not_le hcap)
      · rw [if_neg hseg]; exact ih acc h

end HA

namespace KS

/-- Stripping the sale marker from a handle that literally begins with
it leaves the remainder. -/
theorem stripSalePre_append (l : List Char) :
    stripSalePre ("ausverkauft-".data ++ l) = l := by
  unfold stripSalePre
  rw [if_pos]
  · exact List.drop_left _ _
  · rw [List.isPrefixOf_iff_prefix]
    exact List.prefix_append _ _

/-- Stripping the sale marker from a handle that does not begin with it
is the identity. -/
theorem stripSalePre_of_not (l : List Char)
    (h : ¬ "ausverkauft-".data <+: l) : stripSalePre l = l := by
  unfold stripSalePre
  rw [if_neg]
  intro hc
  exact h (List.isPrefixOf_iff_prefix.mp hc)

/-- Stripping the format marker from a handle that literally ends with
it leaves the remainder. -/
theorem stripShirtSuf_append (l : List Char) :
    stripShirtSuf (l ++ "-t-shirt".data) = l := by
  unfold stripShirtSuf
  rw [if_pos]
  · rw [List.length_append, Nat.add_sub_cancel, List.take_left]
  · rw [List.isSuffixOf_iff_suffix]
    exact List.suffix_append _ _

/-- Stripping the format marker from a handle that does not end with it
is the identity. -/
theorem stripShirtSuf_of_not (l : List Char)
    (h : ¬ "-t-shirt".data <:+ l) : stripShirtSuf l = l := by
  unfold stripShirtSuf
  rw [if_neg]
  intro hc
  exact h (List.isSuffixOf_iff_suffix.mp hc)

/-- When the discovered catalog carries no duplicate cleaned ids and
the prior store carries none, the saved merged list carries none: the
known-id filter keeps new ids disjoint from stored ids. -/
theorem run_saved_ids_nodup (pages : Pages) (spc : String → Nat)
    (exK : List SProduct) (now : String)
    (hk : ((fetch_all_products pages spc).1.map (fun p => p.id)).Nodup)
    (he : (exK.map (fun p => p.id)).Nodup) :
    ((run pages spc exK now).saved.map (fun p => p.id)).Nodup := by
  have heq : (run pages spc exK now).saved.map (fun p => p.id) =
      ((fetch_all_products pages spc).1.filter
        (fun p => p.id ∉ exK.map (fun p => p.id))).map (fun p => p.id) ++
      exK.map (fun p => p.id) := by
    show ((((fetch_all_products pages spc).1.filter
        (fun p => p.id ∉ exK.map (fun p => p.id))).map
        (fun p => toStored p now)) ++ exK).map (fun p => p.id) = _
    rw [List.map_append, List.map_map]
    rfl
  rw [heq, List.nodup_append]
  refine ⟨(List.filter_sublist _).map _ |>.nodup hk, he, ?_⟩
  intro u hu hv
  rcases List.mem_map.1 hu with ⟨p, hp, rfl⟩
  have hcond := (List.mem_filter.1 hp).2
  simp only [decide_eq_true_eq] at hcond
  exact hcond hv

/-- The walk of the pagination loop up to a failing page: when page k
raises and every earlier page from the current one on returns a
nonempty batch, the loop keeps exactly the processed products of the
pages before k and has fetched one page per visited page number,
including the failing one. -/
theorem fetch_go_error_at (pages : Pages) (spc : String → Nat)
    (content : Nat → List RawProduct) (k : Nat) (msg : String)
    (hk : k ≤ 50) (herr : pages k = .error msg)
    (hok : ∀ p, 1 ≤ p → p < k → pages p = .ok (content p) ∧ content p ≠ []) :
    ∀ (fuel page : Nat), page + fuel = 51 → 1 ≤ page → page ≤ k →
      fetch_all_products_go pages spc page fuel =
        ((List.range' page (k - page)).flatMap
          (fun p => (content p).filterMap (processProduct spc)),
         k - page + 1) := by
  intro fuel
  induction fuel with
  | zero => intro page hsum h1 hpk; omega
  | succ fuel ih =>
    intro page hsum h1 hpk
    by_cases hpage : page = k
    · subst hpage
      simp only [fetch_all_products_go, herr]
      rw [Nat.sub_self]
      rfl
    · have hlt : page < k := by omega
      obtain ⟨hokp, hne⟩ := hok page h1 hlt
      cases hcp : content page with
      | nil => exact absurd hcp hne
      | cons q qs =>
        rw [hcp] at hokp
        simp only [fetch_all_products_go, hokp]
        have hcap : ¬ 50 < page + 1 := by omega
        rw [if_neg hcap]
        have hrec := ih (page + 1) (by omega) (by omega) (by omega)
        rw [hrec]
        have hrange : List.range' page (k - page) =
            page :: List.range' (page + 1) (k - page - 1) := by
          have hkp : k - page = (k - page - 1) + 1 := by omega
          conv_lhs => rw [hkp]
          rw [List.range'_succ]
        rw [hrange]
        simp only [List.flatMap_cons, hcp]
        rw [Prod.mk.injEq]
        exact ⟨rfl, by omega⟩

/-- A product that survives processing has a nonempty cleaned id and a
nonempty cleaned title. -/
theorem processProduct_some (strPriceCents : String → Nat) (p : RawProduct)
    (q : Product) (h : processProduct strPriceCents p = some q) :
    q.id ≠ "" ∧ q.title ≠ "" := by
  unfold processProduct at h
  by_cases hg : clean_product_id p.handle ≠ "" ∧ cleanTitle p.title ≠ ""
  · rw [if_pos hg] at h
    simp only [Option.some.injEq] at h
    subst h
    exact hg
  · rw [if_neg hg] at h
    exact absurd h (by simp)

/-- Every product the pagination loop returns came through processing:
it has a nonempty id and a nonempty title. -/
theorem fetch_go_mem (pages : Pages) (strPriceCents : String → Nat) :
    ∀ (fuel page : Nat) (q : Product),
      q ∈ (fetch_all_products_go pages strPriceCents page fuel).1 →
      q.id ≠ "" ∧ q.title ≠ "" := by
  intro fuel
  induction fuel with
  | zero => intro page q hq; exact absurd hq (by simp [fetch_all_products_go])
  | succ fuel ih =>
    intro page q hq
    cases hpg : pages page with
    | error e =>
      simp only [fetch_all_products_go, hpg] at hq
      exact absurd hq (by simp)
    | ok prods =>
      cases prods with
      | nil =>
        simp only [fetch_all_products_go, hpg] at hq
        exact absurd hq (by simp)
      | cons p ps =>
        simp only [fetch_all_products_go, hpg] at hq
        by_cases hcap : 50 < page + 1
        · rw [if_pos hcap] at hq
          simp only [List.mem_filterMap] at hq
          obtain ⟨r, _, hr⟩ := hq
          exact processProduct_some strPriceCents r q hr
        · rw [if_neg hcap] at hq
          rcases List.mem_append.1 hq with h | h
          · simp only [List.mem_filterMap] at h
            obtain ⟨r, _, hr⟩ := h
            exact processProduct_some strPriceCents r q hr
          · exact ih _ q h

/-- The pagination loop fetches at most as many pages as it has fuel. -/
theorem fetch_go_snd_le (pages : Pages) (strPriceCents : String → Nat) :
    ∀ (fuel page : Nat),
      (fetch_all_products_go pages strPriceCents page fuel).2 ≤ fuel := by
  intro fuel
  induction fuel with
  | zero => intro page; simp [fetch_all_products_go]
  | succ fuel ih =>
    intro page
    cases hpg : pages page with
    | error e => simp [fetch_all_products_go, hpg]
    | ok prods =>
      cases prods with
      | nil => simp [fetch_all_products_go, hpg]
      | cons p ps =>
        simp only [fetch_all_products_go, hpg]
        by_cases hcap : 50 < page + 1
        · rw [if_pos hcap]; omega
        · rw [if_neg hcap]
          have := ih (page + 1)
          omega

/-- When every page is nonempty and fetches never fail, the pagination
loop spends all its fuel, fetching one page per unit. -/
theorem fetch_go_snd_eq (pages : Pages) (strPriceCents : String → Nat)
    (hne : ∀ p, ∃ l, pages p = .ok l ∧ l ≠ []) :
    ∀ (fuel page : Nat), page + fuel = 51 → 1 ≤ fuel →
      (fetch_all_products_go pages strPriceCents page fuel).2 = fuel := by
  intro fuel
  induction fuel with
  | zero => intro page _ h1; omega
  | succ fuel ih =>
    intro page hsum _
    obtain ⟨l, hl, hlne⟩ := hne page
    cases l with
    | nil => exact absurd rfl hlne
    | cons p ps =>
      simp only [fetch_all_products_go, hl]
      by_cases hcap : 50 < page + 1
      · rw [if_pos hcap]
        omega
      · rw [if_neg hcap]
        have hfuel : 1 ≤ fuel := by omega
        have := ih (page + 1) (by omega) hfuel
        simp only [this]
        omega

end KS

namespace Util

/-- The exit-code convention shared by the three scrapers: exit 0 when
the summary list is nonempty, exit 1 otherwise, and the summary block
is printed exactly in the exit-0 case. -/
theorem exit_iff {α : Type} (x : List α) :
    ((if x.isEmpty then (1 : Nat) else 0) = 0 ↔ x ≠ []) ∧
    ((!x.isEmpty) = true ↔ (if x.isEmpty then (1 : Nat) else 0) = 0) := by
  cases x <;> simp

end Util

namespace Samples

/-!  Concrete inputs used by the scenario theorems and witnesses.  -/

def eY : AP.Entry :=
  { link := some "/news/y.html", spans := ["01.02.2024 | 18:30", "Y"] }

def eX : AP.Entry :=
  { link := some "/news/x.html", spans := ["02.02.2024 | 19:30", "X"] }

def eZ : AP.Entry :=
  { link := some "/news/z.html", spans := ["03.02.2024 | 20:30", "Z"] }

/-- An entry with an anchor whose href attribute is missing or empty. -/
def eBlank : AP.Entry :=
  { link := some "", spans := ["01.01.2024 | 10:00", "T"] }

def candY : AP.Candidate :=
  ("2024-02-01", "18:30", "Y", "https://www.aev-panther.de/news/y.html")

/-- A previously stored article still pending enrichment. -/
def aOld : AP.Article :=
  { date := "2024-01-01", time := "10:00", title := "Old",
    url := "https://www.aev-panther.de/news/old.html", description := "",
    image := "" }

def pA : KS.SProduct :=
  { id := "a", title := "A", description := "d", url := "u", image := "",
    timestamp := "t0" }

def rp : KS.RawProduct :=
  { handle := "ausverkauft-foo-t-shirt", title := "AUSVERKAUFT: Foo - T-Shirt",
    variants := [], body_html := "", images := [] }

/-- An enrichment oracle on which every attempt raises. -/
def noneOracle : AP.Oracle := fun _ _ => none

/-- An enrichment oracle on which every attempt succeeds. -/
def okOracle : AP.Oracle := fun _ _ => some ("D", "")

/-- A Homey enrichment oracle on which every attempt raises. -/
def noneOracleHA : HA.Oracle := fun _ _ => none

/-- A page oracle on which every fetch raises. -/
def errPages : KS.Pages := fun _ => .error "boom"

/-- A page oracle that keeps returning a nonempty page forever. -/
def fullPages : KS.Pages := fun _ => .ok [rp]

def zeroPrice : String → Nat := fun _ => 0

/-- A page oracle with one nonempty page followed by empty pages. -/
def onePage : KS.Pages := fun p => if p = 1 then .ok [rp] else .ok []

/-- A page oracle whose second fetch raises. -/
def errAt2 : KS.Pages := fun p => if p = 1 then .ok [rp] else .error "boom"

/-- Details of a successfully enriched Homey app. -/
def dZ : HA.Details :=
  { id := "z.app", name := "Z", description := "", image := "",
    developer := "" }

/-- A Homey enrichment oracle on which every attempt succeeds. -/
def okOracleHA : HA.Oracle := fun _ _ => some dZ

end Samples

/-!  The claims.  -/

/-- C7 counterexample: with a prior stored product and a page oracle
whose very first fetch raises a transport error, the Komood run does
not abort: it swallows the error inside pagination, completes, and
still writes the store (the prior list is saved again), exiting 1.
The claim says such a run aborts with the error propagated and writes
no state. -/
theorem C7_counterexample :
    (KS.run Samples.errPages Samples.zeroPrice [Samples.pA] "t").saved =
      [Samples.pA] ∧
    (KS.run Samples.errPages Samples.zeroPrice [Samples.pA] "t").exitCode =
      1 := by decide

/-- C7 (amended): a transport error on the initial listing fetch is
fatal and propagated, with no state written, for the Augsburger Panther
and Homey scrapers; for the Komood scraper a page-fetch error instead
ends pagination silently and the run continues and writes state: an
error on page 1 yields an empty catalog and re-saves the prior list,
and an error on a later page k stops the walk there, keeping exactly
the processed products of pages 1 through k-1, which are then merged
with the prior list and saved. -/
theorem C7_theorem (e : String) (existing : List AP.Article)
    (oracle : AP.Oracle) (exH : List HA.App) (orH : HA.Oracle)
    (pages : KS.Pages) (spc : String → Nat) (exK : List KS.SProduct)
    (now : String) :
    AP.mainRun (.error e) existing oracle = .error e ∧
    HA.mainRun (.error e) exH orH now = .error e ∧
    (KS.run pages spc exK now).saved =
      (KS.run pages spc exK now).new_products ++ exK ∧
    (∀ msg, pages 1 = .error msg →
      (KS.run pages spc exK now).all_products = [] ∧
      (KS.run pages spc exK now).new_products = [] ∧
      (KS.run pages spc exK now).saved = exK ∧
      (KS.run pages spc exK now).pagesFetched = 1) ∧
    (∀ (msg : String) (content : Nat → List KS.RawProduct) (k : Nat),
      1 ≤ k → k ≤ 50 → pages k = .error msg →
      (∀ p, 1 ≤ p → p < k → pages p = .ok (content p) ∧ content p ≠ []) →
      (KS.run pages spc exK now).pagesFetched = k ∧
      (KS.run pages spc exK now).all_products =
        (List.range' 1 (k - 1)).flatMap
          (fun p => (content p).filterMap (KS.processProduct spc))) := by
  refine ⟨rfl, rfl, rfl, ?_, ?_⟩
  · intro msg hpg
    have hfp : KS.fetch_all_products pages spc = ([], 1) := by
      have h49 : KS.fetch_all_products_go pages spc 1 (49 + 1) = ([], 1) := by
        simp only [KS.fetch_all_products_go, hpg]
      exact h49
    refine ⟨?_, ?_, ?_, ?_⟩
    · show (KS.fetch_all_products pages spc).1 = []
      rw [hfp]
    · show ((KS.fetch_all_products pages spc).1.filter _).map _ = []
      rw [hfp]
      rfl
    · show ((KS.fetch_all_products pages spc).1.filter _).map _ ++ exK = exK
      rw [hfp]
      rfl
    · show (KS.fetch_all_products pages spc).2 = 1
      rw [hfp]
  · intro msg content k h1k hk50 herr hok
    have h := KS.fetch_go_error_at pages spc content k msg hk50 herr hok
      50 1 (by omega) (by omega) h1k
    constructor
    · show (KS.fetch_all_products_go pages spc 1 50).2 = k
      rw [h]
      show k - 1 + 1 = k
      omega
    · show (KS.fetch_all_products_go pages spc 1 50).1 =
        (List.range' 1 (k - 1)).flatMap
          (fun p => (content p).filterMap (KS.processProduct spc))
      rw [h]

/-- C7 witness: the amended statement at the all-errors page oracle and
at a page oracle whose second fetch raises, which keeps and saves the
products of page 1. -/
theorem C7_witness :
    (Samples.errPages 1 = .error "boom" ∧
      Samples.errAt2 2 = .error "boom") ∧
    (AP.mainRun (.error "e") [] Samples.noneOracle = .error "e" ∧
      HA.mainRun (.error "e") [] Samples.noneOracleHA "t" = .error "e" ∧
      (KS.run Samples.errPages Samples.zeroPrice [Samples.pA] "t").saved =
        [Samples.pA] ∧
      (KS.run Samples.errPages Samples.zeroPrice [Samples.pA]
        "t").pagesFetched = 1 ∧
      (KS.run Samples.errAt2 Samples.zeroPrice [Samples.pA]
        "t").pagesFetched = 2 ∧
      (KS.run Samples.errAt2 Samples.zeroPrice [Samples.pA]
        "t").all_products =
        (List.range' 1 1).flatMap
          (fun p => ([Samples.rp] : List KS.RawProduct).filterMap
            (KS.processProduct Samples.zeroPrice)) ∧
      (KS.run Samples.errAt2 Samples.zeroPrice [Samples.pA] "t").saved =
        (KS.run Samples.errAt2 Samples.zeroPrice [Samples.pA]
          "t").new_products ++ [Samples.pA]) := by
  have h1 := C7_theorem "e" [] Samples.noneOracle [] Samples.noneOracleHA
    Samples.errPages Samples.zeroPrice [Samples.pA] "t"
  have h2 := C7_theorem "e" [] Samples.noneOracle [] Samples.noneOracleHA
    Samples.errAt2 Samples.zeroPrice [Samples.pA] "t"
  have hok1 : ∀ p, 1 ≤ p → p < 2 →
      Samples.errAt2 p = .ok ((fun _ => [Samples.rp]) p) ∧
      (fun _ : Nat => [Samples.rp]) p ≠ [] := by
    intro p hp1 hp2
    have hp : p = 1 := by omega
    subst hp
    exact ⟨rfl, by decide⟩
  have hgen := h2.2.2.2.2 "boom" (fun _ => [Samples.rp]) 2 (by omega)
    (by omega) rfl hok1
  exact ⟨⟨rfl, rfl⟩,
    h1.1, h1.2.1, (h1.2.2.2.1 "boom" rfl).2.2.1, (h1.2.2.2.1 "boom" rfl).2.2.2,
    hgen.1, hgen.2, h2.2.2.1⟩

/-- C8 counterexample: a run of the Augsburger Panther scraper that
discovers nothing new but successfully enriches a previously stored
pending article exits 0, although no new content was discovered in
that run.  The claim says exit 0 happens exactly when new content was
discovered. -/
theorem C8_counterexample :
    (AP.run [] [Samples.aOld] Samples.okOracle).exitCode = 0 ∧
    (AP.run [] [Samples.aOld] Samples.okOracle).newDiscovered = [] := by
  decide

/-- C8 (amended): each scraper exits 0 exactly when its commit-summary
list is nonempty, and prints the summary block exactly in the exit-0
case, one line per summary item; but the summary list is the set of
articles enriched this run (new or previously pending) for the
Augsburger Panther scraper, the newly discovered products for the
Komood scraper, and the successfully enriched new apps for the Homey
scraper — not the discovered-new set in general. -/
theorem C8_theorem (listing : List AP.Entry) (existing : List AP.Article)
    (oracle : AP.Oracle) (pages : KS.Pages) (spc : String → Nat)
    (exK : List KS.SProduct) (links : List String) (exH : List HA.App)
    (orH : HA.Oracle) (now : String) :
    ((AP.run listing existing oracle).exitCode = 0 ↔
      (AP.run listing existing oracle).updated ≠ []) ∧
    ((AP.run listing existing oracle).summaryPrinted = true ↔
      (AP.run listing existing oracle).exitCode = 0) ∧
    (AP.run listing existing oracle).summaryLines.length =
      (AP.run listing existing oracle).updated.length ∧
    ((KS.run pages spc exK now).exitCode = 0 ↔
      (KS.run pages spc exK now).new_products ≠ []) ∧
    ((KS.run pages spc exK now).summaryPrinted = true ↔
      (KS.run pages spc exK now).exitCode = 0) ∧
    (KS.run pages spc exK now).summaryLines.length =
      (KS.run pages spc exK now).new_products.length ∧
    ((HA.run links exH orH now).exitCode = 0 ↔
      (HA.run links exH orH now).new_apps ≠ []) ∧
    ((HA.run links exH orH now).summaryPrinted = true ↔
      (HA.run links exH orH now).exitCode = 0) ∧
    (HA.run links exH orH now).summaryLines.length =
      (HA.run links exH orH now).new_apps.length :=
  ⟨(Util.exit_iff _).1, (Util.exit_iff _).2, List.length_map _ _,
   (Util.exit_iff _).1, (Util.exit_iff _).2, List.length_map _ _,
   (Util.exit_iff _).1, (Util.exit_iff _).2, List.length_map _ _⟩

/-- C9 counterexample: prepending the sale marker to a handle that
already starts with it changes the cleaned id, because the cleanup
strips the marker only once — so the claimed identity fails at the
handle "ausverkauft-x". -/
theorem C9_counterexample :
    KS.clean_product_id ("ausverkauft-" ++ "ausverkauft-x") ≠
      KS.clean_product_id "ausverkauft-x" := by decide

/-- C9 (amended): cleaning is insensitive to one layer of sale
decoration: prepending the sale marker leaves the cleaned id unchanged
whenever the handle does not itself start with the marker, and
appending the format marker leaves it unchanged whenever the handle
does not itself end with the marker and appending does not create a
fresh sale-marker prefix (as it does for the handle "ausverkauft"). -/
theorem C9_theorem (h : String) :
    (¬ "ausverkauft-".data <+: h.data →
      KS.clean_product_id ("ausverkauft-" ++ h) = KS.clean_product_id h) ∧
    (¬ "-t-shirt".data <:+ h.data →
      "ausverkauft-".data.isPrefixOf (h.data ++ "-t-shirt".data) =
        "ausverkauft-".data.isPrefixOf h.data →
      KS.clean_product_id (h ++ "-t-shirt") = KS.clean_product_id h) := by
  constructor
  · intro hpre
    unfold KS.clean_product_id
    rw [String.data_append, KS.stripSalePre_append, KS.stripSalePre_of_not _ hpre]
  · intro hsuf hagree
    unfold KS.clean_product_id
    rw [String.data_append]
    cases hp : "ausverkauft-".data.isPrefixOf h.data with
    | true =>
      obtain ⟨t, ht⟩ := List.isPrefixOf_iff_prefix.mp hp
      have hLpre : KS.stripSalePre (h.data ++ "-t-shirt".data) =
          t ++ "-t-shirt".data := by
        rw [← ht, List.append_assoc, KS.stripSalePre_append]
      have hRpre : KS.stripSalePre h.data = t := by
        rw [← ht, KS.stripSalePre_append]
      have htsuf : ¬ "-t-shirt".data <:+ t := by
        intro hc
        exact hsuf (hc.trans (ht ▸ List.suffix_append _ t))
      rw [hLpre, hRpre, KS.stripShirtSuf_append, KS.stripShirtSuf_of_not _ htsuf]
    | false =>
      have hpre2 : ¬ "ausverkauft-".data <+: h.data ++ "-t-shirt".data := by
        intro hc
        rw [← List.isPrefixOf_iff_prefix, hagree, hp] at hc
        exact Bool.false_ne_true hc
      have hpre1 : ¬ "ausverkauft-".data <+: h.data := by
        intro hc
        rw [← List.isPrefixOf_iff_prefix, hp] at hc
        exact Bool.false_ne_true hc
      rw [KS.stripSalePre_of_not _ hpre2, KS.stripSalePre_of_not _ hpre1,
        KS.stripShirtSuf_append, KS.stripShirtSuf_of_not _ hsuf]

/-- C9 witness: the amended identities at the undecorated handle
"foo". -/
theorem C9_witness :
    (¬ "ausverkauft-".data <+: "foo".data ∧ ¬ "-t-shirt".data <:+ "foo".data) ∧
    KS.clean_product_id ("ausverkauft-" ++ "foo") = KS.clean_product_id "foo" ∧
    KS.clean_product_id ("foo" ++ "-t-shirt") = KS.clean_product_id "foo" :=
  by
  have h := C9_theorem "foo"
  exact ⟨⟨by decide, by decide⟩, h.1 (by decide), h.2 (by decide) (by decide)⟩

/-- C10: paginated catalog discovery always terminates: the pagination
loop fetches at most 50 pages for every page oracle; a transport error
on page 1 or an empty page 1 stops it after one page with an empty
catalog; and when the source keeps returning nonempty pages forever it
examines exactly 50 pages. -/
theorem C10_theorem (pages : KS.Pages) (spc : String → Nat) :
    (KS.fetch_all_products pages spc).2 ≤ 50 ∧
    (∀ msg, pages 1 = .error msg →
      KS.fetch_all_products pages spc = ([], 1)) ∧
    (pages 1 = .ok [] → KS.fetch_all_products pages spc = ([], 1)) ∧
    ((∀ p, ∃ l, pages p = .ok l ∧ l ≠ []) →
      (KS.fetch_all_products pages spc).2 = 50) := by
  refine ⟨KS.fetch_go_snd_le pages spc 50 1, ?_, ?_, ?_⟩
  · intro msg hpg
    have h49 : KS.fetch_all_products_go pages spc 1 (49 + 1) = ([], 1) := by
      simp only [KS.fetch_all_products_go, hpg]
    exact h49
  · intro hpg
    have h49 : KS.fetch_all_products_go pages spc 1 (49 + 1) = ([], 1) := by
      simp only [KS.fetch_all_products_go, hpg]
    exact h49
  · intro hne
    exact KS.fetch_go_snd_eq pages spc hne 50 1 (by omega) (by omega)

/-- C10 witness: page counts at a never-empty page oracle and at the
all-errors page oracle. -/
theorem C10_witness :
    (∀ p, ∃ l, Samples.fullPages p = .ok l ∧ l ≠ []) ∧
    (KS.fetch_all_products Samples.fullPages Samples.zeroPrice).2 = 50 ∧
    KS.fetch_all_products Samples.errPages Samples.zeroPrice = ([], 1) :=
  ⟨fun _ => ⟨[Samples.rp], rfl, by decide⟩,
   (C10_theorem Samples.fullPages Samples.zeroPrice).2.2.2
     (fun _ => ⟨[Samples.rp], rfl, by decide⟩),
   (C10_theorem Samples.errPages Samples.zeroPrice).2.1 "boom" rfl⟩

namespace AP

/-- Discovery never returns more than MAX_ARTICLES candidates. -/
theorem run_new_length_le (listing : List Entry) (existing : List Article)
    (oracle : Oracle) :
    (run listing existing oracle).newDiscovered.length ≤ MAX_ARTICLES :=
  parse_go_length _ listing [] (by decide)

/-- The trimmed list is the new candidates followed by the prefix of the
prior list that still fits under the cap. -/
theorem run_trimmed_eq (listing : List Entry) (existing : List Article)
    (oracle : Oracle) :
    (run listing existing oracle).trimmed =
      (run listing existing oracle).newDiscovered.map toDict ++
        existing.take
          (MAX_ARTICLES - (run listing existing oracle).newDiscovered.length) := by
  have hn : (parse_news_items listing (existing.map fun a => a.url)).length ≤
      MAX_ARTICLES := parse_go_length _ listing [] (by decide)
  show ((parse_news_items listing (existing.map fun a => a.url)).map toDict ++
      existing).take MAX_ARTICLES =
    (parse_news_items listing (existing.map fun a => a.url)).map toDict ++
      existing.take (MAX_ARTICLES -
        (parse_news_items listing (existing.map fun a => a.url)).length)
  have hlen : MAX_ARTICLES =
      ((parse_news_items listing (existing.map fun a => a.url)).map
        toDict).length +
      (MAX_ARTICLES -
        (parse_news_items listing (existing.map fun a => a.url)).length) := by
    rw [List.length_map]
    omega
  conv_lhs => rw [hlen]
  rw [List.take_append]

/-- What truncation evicts is exactly a tail of the prior stored list. -/
theorem run_evicted_eq (listing : List Entry) (existing : List Article)
    (oracle : Oracle) :
    (run listing existing oracle).mergedPreTrim.drop MAX_ARTICLES =
      existing.drop
        (MAX_ARTICLES - (run listing existing oracle).newDiscovered.length) := by
  have hn : (parse_news_items listing (existing.map fun a => a.url)).length ≤
      MAX_ARTICLES := parse_go_length _ listing [] (by decide)
  show ((parse_news_items listing (existing.map fun a => a.url)).map toDict ++
      existing).drop MAX_ARTICLES =
    existing.drop (MAX_ARTICLES -
      (parse_news_items listing (existing.map fun a => a.url)).length)
  have hlen : MAX_ARTICLES =
      ((parse_news_items listing (existing.map fun a => a.url)).map
        toDict).length +
      (MAX_ARTICLES -
        (parse_news_items listing (existing.map fun a => a.url)).length) := by
    rw [List.length_map]
    omega
  conv_lhs => rw [hlen]
  rw [List.drop_append]

end AP

namespace HA

/-- Discovery keeps at most MAX_APPS new apps after enrichment. -/
theorem run_new_apps_length_le (links : List String) (exH : List App)
    (orH : Oracle) (now : String) :
    (run links exH orH now).new_apps.length ≤ MAX_APPS := by
  have h1 : (parse_new_apps links (exH.map fun a => a.id)).length ≤ MAX_APPS :=
    parse_apps_go_length _ links [] (by decide)
  have h2 : (run links exH orH now).new_apps.length ≤
      (parse_new_apps links (exH.map fun a => a.id)).length :=
    List.length_filterMap_le _ _
  omega

/-- The saved list never exceeds the cap. -/
theorem run_saved_apps_length (links : List String) (exH : List App)
    (orH : Oracle) (now : String) :
    (run links exH orH now).saved.length ≤ MAX_APPS := by
  show (((parse_new_apps links (exH.map fun a => a.id)).filterMap
      (fun u => (fetch_app_details_with_retry (orH u)).map
        (fun d => mkApp d u now)) ++ exH).take MAX_APPS).length ≤ MAX_APPS
  rw [List.length_take]
  exact Nat.min_le_left _ _

/-- The saved list is the new apps followed by the prefix of the prior
list that still fits under the cap. -/
theorem run_saved_eq (links : List String) (exH : List App) (orH : Oracle)
    (now : String) :
    (run links exH orH now).saved =
      (run links exH orH now).new_apps ++
        exH.take (MAX_APPS - (run links exH orH now).new_apps.length) := by
  have hn := run_new_apps_length_le links exH orH now
  show ((run links exH orH now).new_apps ++ exH).take MAX_APPS =
    (run links exH orH now).new_apps ++
      exH.take (MAX_APPS - (run links exH orH now).new_apps.length)
  have hlen : MAX_APPS = (run links exH orH now).new_apps.length +
      (MAX_APPS - (run links exH orH now).new_apps.length) := by omega
  conv_lhs => rw [hlen]
  rw [List.take_append]

/-- What truncation evicts is exactly a tail of the prior stored list. -/
theorem run_evicted_apps_eq (links : List String) (exH : List App) (orH : Oracle)
    (now : String) :
    (run links exH orH now).merged.drop MAX_APPS =
      exH.drop (MAX_APPS - (run links exH orH now).new_apps.length) := by
  have hn := run_new_apps_length_le links exH orH now
  show ((run links exH orH now).new_apps ++ exH).drop MAX_APPS =
    exH.drop (MAX_APPS - (run links exH orH now).new_apps.length)
  have hlen : MAX_APPS = (run links exH orH now).new_apps.length +
      (MAX_APPS - (run links exH orH now).new_apps.length) := by omega
  conv_lhs => rw [hlen]
  rw [List.drop_append]

end HA

/-- C1 counterexample: the adapters do not deduplicate within a run —
a listing that carries the same entry twice (no entry known) makes the
Augsburger Panther scraper emit the same URL twice, so the saved merged
list contains two records with the same id, contradicting the claimed
invariant for every run. -/
theorem C1_counterexample :
    ¬ (((AP.run [Samples.eY, Samples.eY] [] Samples.noneOracle).saved.map
      (fun a => a.url)).Nodup) := by decide

/-- C1 (amended): the Source Adapters never emit a candidate whose id is
already known, and the saved merged list is duplicate-free provided the
live listing itself carries no duplicate resolved URLs (the adapters do
not deduplicate within a single run, so listing-level duplicates
propagate). -/
theorem C1_theorem (listing : List AP.Entry) (existing : List AP.Article)
    (oracle : AP.Oracle) (pages : KS.Pages) (spc : String → Nat)
    (exK : List KS.SProduct) (now : String)
    (hl : (listing.filterMap AP.entryUrl).Nodup)
    (he : (existing.map (fun a => a.url)).Nodup)
    (hk : ((KS.fetch_all_products pages spc).1.map (fun p => p.id)).Nodup)
    (hek : (exK.map (fun p => p.id)).Nodup) :
    (∀ c ∈ (AP.run listing existing oracle).newDiscovered,
      AP.candUrl c ∉ existing.map (fun a => a.url)) ∧
    ((AP.run listing existing oracle).saved.map (fun a => a.url)).Nodup ∧
    (∀ q ∈ (KS.run pages spc exK now).new_products,
      q.id ∉ exK.map (fun p => p.id)) ∧
    ((KS.run pages spc exK now).saved.map (fun p => p.id)).Nodup := by
  have hknown : ∀ c ∈ (AP.run listing existing oracle).newDiscovered,
      AP.candUrl c ∉ existing.map (fun a => a.url) := by
    intro c hc
    have hc' : c ∈ AP.parse_news_items_go (existing.map fun a => a.url)
        listing [] := hc
    rcases AP.parse_go_mem _ listing [] c hc' with h | h
    · exact absurd h (List.not_mem_nil c)
    · exact h.2.2
  refine ⟨hknown, ?_, ?_, ?_⟩
  · have hsub : ((AP.run listing existing oracle).newDiscovered.map
        AP.candUrl).Sublist (listing.filterMap AP.entryUrl) := by
      have h := AP.parse_go_sublist (existing.map fun a => a.url) listing []
      simpa using h
    have hnew : ((AP.run listing existing oracle).newDiscovered.map
        AP.candUrl).Nodup := hsub.nodup hl
    have hmerged : ((AP.run listing existing oracle).mergedPreTrim.map
        (fun a => a.url)).Nodup := by
      have heq : (AP.run listing existing oracle).mergedPreTrim.map
          (fun a => a.url) =
          (AP.run listing existing oracle).newDiscovered.map AP.candUrl ++
            existing.map (fun a => a.url) := by
        show ((AP.parse_news_items listing (existing.map fun a => a.url)).map
          AP.toDict ++ existing).map (fun a => a.url) = _
        rw [List.map_append, List.map_map]
        rfl
      rw [heq, List.nodup_append]
      refine ⟨hnew, he, ?_⟩
      intro u hu hv
      rcases List.mem_map.1 hu with ⟨c, hc, rfl⟩
      exact hknown c hc hv
    have hsavedmap : (AP.run listing existing oracle).saved.map
        (fun a => a.url) =
        (AP.run listing existing oracle).trimmed.map (fun a => a.url) := by
      show (AP.enrichAll oracle (AP.run listing existing oracle).trimmed).1.map
        (fun a => a.url) = _
      rw [AP.enrichAll_fst, List.map_map]
      have hf : ((fun a : AP.Article => a.url) ∘
          fun a => (AP.enrichStep oracle a).1) =
          fun a : AP.Article => a.url :=
        funext fun a => AP.enrichStep_fst_url oracle a
      rw [hf]
    rw [hsavedmap]
    have htr : ((AP.run listing existing oracle).trimmed.map
        (fun a => a.url)).Sublist
        ((AP.run listing existing oracle).mergedPreTrim.map (fun a => a.url)) :=
      (List.take_sublist _ _).map _
    exact htr.nodup hmerged
  · intro q hq
    have hq' : q ∈ ((KS.fetch_all_products pages spc).1.filter
        (fun p => p.id ∉ exK.map (fun p => p.id))).map
        (fun p => KS.toStored p now) := hq
    rcases List.mem_map.1 hq' with ⟨p, hp, rfl⟩
    have hmem := (List.mem_filter.1 hp).2
    simpa using hmem
  · exact KS.run_saved_ids_nodup pages spc exK now hk hek

/-- C1 witness: the amended statement at a one-entry listing, an empty
prior list, and a prior Komood store with one product. -/
theorem C1_witness :
    (([Samples.eY].filterMap AP.entryUrl).Nodup ∧
      (([] : List AP.Article).map (fun a => a.url)).Nodup ∧
      ((KS.fetch_all_products Samples.onePage Samples.zeroPrice).1.map
        (fun p => p.id)).Nodup ∧
      ([Samples.pA].map (fun p => p.id)).Nodup) ∧
    ((∀ c ∈ (AP.run [Samples.eY] [] Samples.noneOracle).newDiscovered,
        AP.candUrl c ∉ ([] : List AP.Article).map (fun a => a.url)) ∧
      ((AP.run [Samples.eY] [] Samples.noneOracle).saved.map
        (fun a => a.url)).Nodup ∧
      (∀ q ∈ (KS.run Samples.onePage Samples.zeroPrice [Samples.pA]
          "t").new_products, q.id ∉ [Samples.pA].map (fun p => p.id)) ∧
      ((KS.run Samples.onePage Samples.zeroPrice [Samples.pA] "t").saved.map
        (fun p => p.id)).Nodup) :=
  ⟨⟨by decide, by decide, by decide, by decide⟩,
   C1_theorem [Samples.eY] [] Samples.noneOracle Samples.onePage
     Samples.zeroPrice [Samples.pA] "t" (by decide) (by decide) (by decide)
     (by decide)⟩

/-- C2: before truncation the merged list is exactly the newly
discovered candidates, in discovery order, followed by the prior stored
list with its order untouched — its prefix of the new length is the new
items and the rest is the prior list; the uncapped Komood merge is the
same concatenation. -/
theorem C2_theorem (listing : List AP.Entry) (existing : List AP.Article)
    (oracle : AP.Oracle) (pages : KS.Pages) (spc : String → Nat)
    (exK : List KS.SProduct) (now : String) :
    (AP.run listing existing oracle).mergedPreTrim =
      (AP.run listing existing oracle).newDiscovered.map AP.toDict ++
        existing ∧
    (AP.run listing existing oracle).mergedPreTrim.take
      (AP.run listing existing oracle).newDiscovered.length =
      (AP.run listing existing oracle).newDiscovered.map AP.toDict ∧
    (AP.run listing existing oracle).mergedPreTrim.drop
      (AP.run listing existing oracle).newDiscovered.length = existing ∧
    (KS.run pages spc exK now).merged =
      (KS.run pages spc exK now).new_products ++ exK := by
  refine ⟨rfl, ?_, ?_, rfl⟩
  · show ((AP.parse_news_items listing (existing.map fun a => a.url)).map
        AP.toDict ++ existing).take
        (AP.parse_news_items listing (existing.map fun a => a.url)).length =
      (AP.parse_news_items listing (existing.map fun a => a.url)).map AP.toDict
    rw [← List.length_map (AP.parse_news_items listing
      (existing.map fun a => a.url)) AP.toDict, List.take_left]
  · show ((AP.parse_news_items listing (existing.map fun a => a.url)).map
        AP.toDict ++ existing).drop
        (AP.parse_news_items listing (existing.map fun a => a.url)).length =
      existing
    rw [← List.length_map (AP.parse_news_items listing
      (existing.map fun a => a.url)) AP.toDict, List.drop_left]

/-- C3: for the two capped scrapers, a run discovers at most the cap,
the saved list never exceeds the cap, truncation keeps the new items
plus the prior prefix that still fits, and the evicted records are
exactly a tail of the prior stored list — a candidate discovered in the
current run is never evicted. -/
theorem C3_theorem (listing : List AP.Entry) (existing : List AP.Article)
    (oracle : AP.Oracle) (links : List String) (exH : List HA.App)
    (orH : HA.Oracle) (now : String) :
    (AP.run listing existing oracle).newDiscovered.length ≤ AP.MAX_ARTICLES ∧
    (AP.run listing existing oracle).saved.length ≤ AP.MAX_ARTICLES ∧
    (AP.run listing existing oracle).trimmed =
      (AP.run listing existing oracle).newDiscovered.map AP.toDict ++
        existing.take (AP.MAX_ARTICLES -
          (AP.run listing existing oracle).newDiscovered.length) ∧
    (AP.run listing existing oracle).mergedPreTrim.drop AP.MAX_ARTICLES =
      existing.drop (AP.MAX_ARTICLES -
        (AP.run listing existing oracle).newDiscovered.length) ∧
    (HA.run links exH orH now).new_apps.length ≤ HA.MAX_APPS ∧
    (HA.run links exH orH now).saved.length ≤ HA.MAX_APPS ∧
    (HA.run links exH orH now).saved =
      (HA.run links exH orH now).new_apps ++
        exH.take (HA.MAX_APPS - (HA.run links exH orH now).new_apps.length) ∧
    (HA.run links exH orH now).merged.drop HA.MAX_APPS =
      exH.drop (HA.MAX_APPS - (HA.run links exH orH now).new_apps.length) :=
  ⟨AP.run_new_length_le listing existing oracle,
   AP.run_saved_length listing existing oracle,
   AP.run_trimmed_eq listing existing oracle,
   AP.run_evicted_eq listing existing oracle,
   HA.run_new_apps_length_le links exH orH now,
   HA.run_saved_apps_length links exH orH now,
   HA.run_saved_eq links exH orH now,
   HA.run_evicted_apps_eq links exH orH now⟩

/-- C4 counterexample: for the Homey scraper, a freshly discovered app
whose enrichment fails all attempts is not written to the Store at all
— the run saves an empty list — contradicting the claim that for every
scraper such a record is still written with an empty description. -/
theorem C4_counterexample :
    (HA.run ["/app/z.app/"] [] Samples.noneOracleHA "t").new_app_urls =
      ["https://homey.app/app/z.app/"] ∧
    HA.fetch_app_details_with_retry
      (Samples.noneOracleHA "https://homey.app/app/z.app/") = none ∧
    (HA.run ["/app/z.app/"] [] Samples.noneOracleHA "t").saved = [] := by
  decide

/-- C4 (amended): for the Augsburger Panther scraper a record in the
trimmed list whose enrichment fails all attempts is still saved with
its empty description and excluded from the rendered feed; in every
subsequent run it is again in the pending set the enricher re-attempts
as long as it survives trimming, and a run that discovers nothing new
never evicts it — so it stays pending until enrichment succeeds or
truncation evicts it.  For the Homey scraper a new candidate whose
enrichment fails is instead dropped from this run entirely; because its
id never enters the store, a later run whose listing still carries its
href collects the URL again and, when enrichment then succeeds, writes
the app.  The Komood scraper has no per-item enrichment step. -/
theorem C4_theorem :
    (∀ (listing : List AP.Entry) (existing : List AP.Article)
        (oracle oracle2 : AP.Oracle) (a : AP.Article),
      a ∈ (AP.run listing existing oracle).trimmed →
      a.description = "" →
      AP.fetch_article_content_with_retry (oracle a.url) = none →
      a ∈ (AP.run listing existing oracle).saved ∧
      a ∉ (AP.run listing existing oracle).feed ∧
      (∀ (listing2 : List AP.Entry),
        a ∈ (AP.run listing2 (AP.run listing existing oracle).saved
          oracle2).trimmed →
        a ∈ AP.articles_needing_content
          ((AP.run listing2 (AP.run listing existing oracle).saved
            oracle2).trimmed)) ∧
      a ∈ (AP.run [] (AP.run listing existing oracle).saved
        oracle2).trimmed) ∧
    (∀ (links : List String) (exH : List HA.App) (orH : HA.Oracle)
        (now u : String),
      HA.fetch_app_details_with_retry (orH u) = none →
      ∀ ap ∈ (HA.run links exH orH now).new_apps, ap.url ≠ u) ∧
    (∀ (links2 : List String) (exH2 : List HA.App) (orH2 : HA.Oracle)
        (now2 href : String) (d : HA.Details),
      href ≠ "" → HA.hasAppSeg (HA.absHref href) = true →
      HA.appIdOf (HA.absHref href) ∉ exH2.map (fun a => a.id) →
      HA.fetch_app_details_with_retry (orH2 (HA.absHref href)) = some d →
      HA.absHref href ∈ (HA.run (href :: links2) exH2 orH2 now2).new_app_urls ∧
      HA.mkApp d (HA.absHref href) now2 ∈
        (HA.run (href :: links2) exH2 orH2 now2).new_apps) := by
  refine ⟨?_, ?_, ?_⟩
  · intro listing existing oracle oracle2 a ha hdesc hfail
    have hstep : AP.enrichStep oracle a = (a, false) :=
      AP.enrichStep_of_fail oracle a hdesc hfail
    have hsaved : a ∈ (AP.run listing existing oracle).saved := by
      have hmm : a ∈ (AP.run listing existing oracle).trimmed.map
          (fun x => (AP.enrichStep oracle x).1) :=
        List.mem_map.2 ⟨a, ha, by rw [hstep]⟩
      have hmap : (AP.run listing existing oracle).saved =
          (AP.run listing existing oracle).trimmed.map
            (fun x => (AP.enrichStep oracle x).1) := AP.enrichAll_fst oracle _
      rw [hmap]
      exact hmm
    refine ⟨hsaved, ?_, ?_, ?_⟩
    · intro hfeed
      have hcond := (List.mem_filter.1 hfeed).2
      rw [hdesc] at hcond
      simp at hcond
    · intro listing2 ha2
      exact List.mem_filter.2 ⟨ha2, by rw [hdesc]; rfl⟩
    · have hlen := AP.run_saved_length listing existing oracle
      have htr2 : (AP.run [] (AP.run listing existing oracle).saved
          oracle2).trimmed = (AP.run listing existing oracle).saved := by
        show ((AP.run listing existing oracle).saved).take AP.MAX_ARTICLES = _
        exact List.take_of_length_le hlen
      rw [htr2]
      exact hsaved
  · intro links exH orH now u hfail ap hap hurl
    have hap' : ap ∈ (HA.parse_new_apps links (exH.map fun a => a.id)).filterMap
        (fun v => (HA.fetch_app_details_with_retry (orH v)).map
          (fun d => HA.mkApp d v now)) := hap
    rcases List.mem_filterMap.1 hap' with ⟨v, hv, hsome⟩
    rcases Option.map_eq_some'.1 hsome with ⟨d, hd, hmk⟩
    have hvurl : ap.url = v := by rw [← hmk]; rfl
    have hvu : v = u := by rw [← hvurl, hurl]
    rw [hvu, hfail] at hd
    exact Option.noConfusion hd
  · intro links2 exH2 orH2 now2 href d h0 hseg hknown hretry
    have hmem : HA.absHref href ∈ HA.parse_new_apps (href :: links2)
        (exH2.map fun a => a.id) :=
      HA.parse_first_mem _ href links2 h0 hseg hknown
    refine ⟨hmem, ?_⟩
    exact List.mem_filterMap.2 ⟨HA.absHref href, hmem, by rw [hretry]; rfl⟩

/-- C4 witness: the amended statement at a one-entry Augsburger Panther
listing whose enrichment always fails, and at a one-link Homey listing
whose failed-then-successful app is rediscovered and written. -/
theorem C4_witness :
    (AP.toDict Samples.candY ∈
        (AP.run [Samples.eY] [] Samples.noneOracle).trimmed ∧
      (AP.toDict Samples.candY).description = "" ∧
      AP.fetch_article_content_with_retry
        (Samples.noneOracle (AP.toDict Samples.candY).url) = none ∧
      HA.fetch_app_details_with_retry (Samples.noneOracleHA "u") = none ∧
      "/app/z.app/" ≠ "" ∧
      HA.hasAppSeg (HA.absHref "/app/z.app/") = true ∧
      HA.appIdOf (HA.absHref "/app/z.app/") ∉
        ([] : List HA.App).map (fun a => a.id) ∧
      HA.fetch_app_details_with_retry
        (Samples.okOracleHA (HA.absHref "/app/z.app/")) = some Samples.dZ) ∧
    (AP.toDict Samples.candY ∈
        (AP.run [Samples.eY] [] Samples.noneOracle).saved ∧
      AP.toDict Samples.candY ∉
        (AP.run [Samples.eY] [] Samples.noneOracle).feed ∧
      AP.toDict Samples.candY ∈
        (AP.run [] (AP.run [Samples.eY] [] Samples.noneOracle).saved
          Samples.noneOracle).trimmed ∧
      AP.toDict Samples.candY ∈ AP.articles_needing_content
        ((AP.run [] (AP.run [Samples.eY] [] Samples.noneOracle).saved
          Samples.noneOracle).trimmed) ∧
      (∀ ap ∈ (HA.run ["/app/z.app/"] [] Samples.noneOracleHA "t").new_apps,
        ap.url ≠ "u") ∧
      HA.absHref "/app/z.app/" ∈
        (HA.run ["/app/z.app/"] [] Samples.okOracleHA "t2").new_app_urls ∧
      HA.mkApp Samples.dZ (HA.absHref "/app/z.app/") "t2" ∈
        (HA.run ["/app/z.app/"] [] Samples.okOracleHA "t2").new_apps) := by
  have hAP := C4_theorem.1 [Samples.eY] [] Samples.noneOracle
    Samples.noneOracle (AP.toDict Samples.candY) (by decide) (by decide)
    (by decide)
  have hHA1 := C4_theorem.2.1 ["/app/z.app/"] [] Samples.noneOracleHA "t" "u"
    (by decide)
  have hHA2 := C4_theorem.2.2 [] [] Samples.okOracleHA "t2" "/app/z.app/"
    Samples.dZ (by decide) (by decide) (by decide) (by decide)
  exact ⟨⟨by decide, by decide, by decide, by decide, by decide, by decide,
      by decide, by decide⟩,
    hAP.1, hAP.2.1, hAP.2.2.2, hAP.2.2.1 [] hAP.2.2.2, hHA1, hHA2.1, hHA2.2⟩

/-- C5: stop-at-known discovery never looks below the first known
entry — for any listing split around an entry whose resolved URL is
known, parsing equals parsing the part above it alone; in particular
with known set {X} and listing [Y, X, Z] the discovered candidates are
exactly [Y]. -/
theorem C5_theorem :
    (∀ (existing : List String) (l₁ l₂ : List AP.Entry) (item : AP.Entry)
        (href : String),
      item.link = some href → AP.resolveUrl href ∈ existing →
      AP.parse_news_items (l₁ ++ item :: l₂) existing =
        AP.parse_news_items l₁ existing) ∧
    AP.parse_news_items [Samples.eY, Samples.eX, Samples.eZ]
      ["https://www.aev-panther.de/news/x.html"] = [Samples.candY] :=
  ⟨fun existing l₁ l₂ item href h1 h2 =>
    AP.parse_go_stop existing item href h1 h2 l₁ l₂ [],
   by decide⟩

/-- C5 witness: the stop-at-known equality at the scenario listing
[Y, X, Z] with X known. -/
theorem C5_witness :
    (Samples.eX.link = some "/news/x.html" ∧
      AP.resolveUrl "/news/x.html" ∈
        ["https://www.aev-panther.de/news/x.html"]) ∧
    AP.parse_news_items ([Samples.eY] ++ Samples.eX :: [Samples.eZ])
        ["https://www.aev-panther.de/news/x.html"] =
      AP.parse_news_items [Samples.eY]
        ["https://www.aev-panther.de/news/x.html"] :=
  ⟨⟨rfl, by decide⟩,
   C5_theorem.1 ["https://www.aev-panther.de/news/x.html"] [Samples.eY]
     [Samples.eZ] Samples.eX "/news/x.html" rfl (by decide)⟩

/-- C6 counterexample: an Augsburger Panther listing entry whose anchor
has an empty href (a missing URL) but a nonempty title is not skipped —
the base URL is substituted and the entry is emitted as a candidate —
contradicting the claim that entries missing a required field are
skipped entirely. -/
theorem C6_counterexample :
    AP.parse_news_items [Samples.eBlank] [] ≠ [] ∧
    AP.parse_news_items [Samples.eBlank] [] =
      [("2024-01-01", "10:00", "T", "https://www.aev-panther.de")] := by
  decide

/-- C6 (amended): no emitted candidate ever has a blank title or a
blank URL — entries with an empty title are skipped, and the Komood
adapter also skips products whose cleaned id is empty — but an
Augsburger Panther entry with a missing or empty href is not skipped:
its URL falls back to the base URL. -/
theorem C6_theorem :
    (∀ (entries : List AP.Entry) (existing : List String) (c : AP.Candidate),
      c ∈ AP.parse_news_items entries existing →
      c.2.2.1 ≠ "" ∧ c.2.2.2 ≠ "") ∧
    (∀ (pages : KS.Pages) (spc : String → Nat) (q : KS.Product),
      q ∈ (KS.fetch_all_products pages spc).1 →
      q.id ≠ "" ∧ q.title ≠ "") := by
  constructor
  · intro entries existing c hc
    rcases AP.parse_go_mem existing entries [] c hc with h | h
    · exact absurd h (List.not_mem_nil c)
    · exact ⟨h.1, h.2.1⟩
  · intro pages spc q hq
    exact KS.fetch_go_mem pages spc 50 1 q hq

/-- C6 witness: the emitted candidate of a one-entry listing has a
nonempty title and URL. -/
theorem C6_witness :
    (Samples.candY ∈ AP.parse_news_items [Samples.eY] []) ∧
    (Samples.candY.2.2.1 ≠ "" ∧ Samples.candY.2.2.2 ≠ "") :=
  ⟨by decide, C6_theorem.1 [Samples.eY] [] Samples.candY (by decide)⟩
